import Mathlib

/-!
Verification development for the `svg` repository (files `svg.py`,
`svg_wrapper.py`): a shallow embedding in Lean 4 of the raster
preprocessing pipeline `preprocess_flat_keyed_rgb` and of the vector
cleanup pass `remove_key_color_from_svg`, together with theorems about
the behaviours the design document describes.

Modelling conventions:
* NumPy `int32` arithmetic never overflows in this program (all values
  are sums of a few squares of numbers below 2^16), so integer channel
  values are embedded as `Int`.
* A NumPy `uint8` cast wraps modulo 256; this is modelled by `% 256`
  (`Int.emod`, whose result lies in `[0, 256)` for a positive modulus).
* PIL's `Image.resize` (LANCZOS) and `ImageFilter.GaussianBlur` are
  external floating-point library code; they enter the embedding as
  explicit function parameters (`resample`, `gaussBlur`).  Every theorem
  below either holds for all values of these parameters or is stated in
  a configuration (`scale = 1`, `mask_blur = 0`) where the source skips
  those calls.
* PIL's `ImageFilter.MaxFilter`/`MinFilter` (rank filters) are modelled
  exactly: a max/min over a `size × size` window; PIL pads via
  `Image.expand`, which replicates edge pixels, modelled here by
  clamping coordinates into the grid.
-/

/-- An RGB colour triple; channels are 8-bit in real images but carried
as `Int` to mirror the `int32` arithmetic of the source. -/
structure Rgb where
  r : Int
  g : Int
  b : Int
deriving DecidableEq, Repr

/-- An RGBA pixel as loaded by `Image.open(...).convert("RGBA")`. -/
structure Rgba where
  r : Int
  g : Int
  b : Int
  a : Int
deriving DecidableEq, Repr

/-- The colour part of an RGBA pixel (`arr[..., :3]` in the source). -/
def Rgba.rgb (p : Rgba) : Rgb := ⟨p.r, p.g, p.b⟩

/-- A 2-D raster, indexed row-major like the NumPy arrays of the
source (`px y x`).  The pixel function is total; only indices below
`H`/`W` are meaningful. -/
structure Grid (α : Type) where
  H : Nat
  W : Nat
  px : Nat → Nat → α

/-- Squared Euclidean RGB distance, the quantity the source computes as
`dist2`, `dw`, `db` (and whose square root is `rgb_dist`). -/
def dist2 (c d : Rgb) : Int :=
  (c.r - d.r) * (c.r - d.r) + (c.g - d.g) * (c.g - d.g) + (c.b - d.b) * (c.b - d.b)

/-- The `uint8` cast applied when a colour is written into the output
array (`np.array(color, dtype=np.uint8)`): each channel wraps mod 256. -/
def u8 (c : Rgb) : Rgb := ⟨c.r % 256, c.g % 256, c.b % 256⟩

/-- A colour whose channels are genuine 8-bit values. -/
def InRange (c : Rgb) : Prop :=
  0 ≤ c.r ∧ c.r < 256 ∧ 0 ≤ c.g ∧ c.g < 256 ∧ 0 ≤ c.b ∧ c.b < 256

instance (c : Rgb) : Decidable (InRange c) := by
  unfold InRange; infer_instance

/-- The keyword-argument record of `preprocess_flat_keyed_rgb`. -/
structure PreCfg where
  white_rgb : Rgb
  blue_rgb : Rgb
  bg_rgb : Rgb
  alpha_cutoff : Int
  scale : Int
  bg_dist : Int
  mask_blur : ℚ
  morph : Int

/-- `img.resize(...)` is applied only when `scale != 1`
(`if scale != 1: img = img.resize(..., Image.Resampling.LANCZOS)`);
the LANCZOS resampler itself is the external `resample` parameter. -/
def scaledInput (resample : Int → Grid Rgba → Grid Rgba) (cfg : PreCfg)
    (img : Grid Rgba) : Grid Rgba :=
  if cfg.scale ≠ 1 then resample cfg.scale img else img

/-- The raw foreground test of step 1:
`fg = (a > alpha_cutoff) & (dist2 > bg_dist*bg_dist)`. -/
def fgRaw (cfg : PreCfg) (arr : Grid Rgba) : Grid Bool :=
  ⟨arr.H, arr.W, fun y x =>
    decide (cfg.alpha_cutoff < (arr.px y x).a) &&
    decide (cfg.bg_dist * cfg.bg_dist < dist2 (arr.px y x).rgb cfg.bg_rgb)⟩

/-- `Image.fromarray(fg.astype(np.uint8) * 255, mode="L")`: the boolean
mask rendered as an 8-bit matte. -/
def maskOfFg (fg : Grid Bool) : Grid Int :=
  ⟨fg.H, fg.W, fun y x => if fg.px y x then 255 else 0⟩

/-- `mask.point(lambda p: 255 if p >= 128 else 0)`. -/
def thresholdMask (m : Grid Int) : Grid Int :=
  ⟨m.H, m.W, fun y x => if 128 ≤ m.px y x then 255 else 0⟩

/-- Clamp an integer coordinate into `[0, n-1]`, the edge-replication
padding PIL's rank filters use at the border. -/
def clampIdx (n : Nat) (i : Int) : Nat :=
  if i < 0 then 0 else if (n : Int) - 1 < i then n - 1 else i.toNat

/-- Grid access at (possibly out-of-range) integer coordinates with
edge replication. -/
def pxClamped (m : Grid Int) (y x : Int) : Int :=
  m.px (clampIdx m.H y) (clampIdx m.W x)

/-- The `size × size` window of values around `(y, x)` that a PIL rank
filter of the given size inspects (window offsets `-(size/2) .. size/2`
for the odd sizes PIL accepts). -/
def windowVals (size : Int) (m : Grid Int) (y x : Nat) : List Int :=
  (List.range size.toNat).flatMap fun dy =>
    (List.range size.toNat).map fun dx =>
      pxClamped m ((y : Int) + dy - size / 2) ((x : Int) + dx - size / 2)

/-- `ImageFilter.MaxFilter(size)`: pointwise maximum over the window. -/
def rankMax (size : Int) (m : Grid Int) : Grid Int :=
  ⟨m.H, m.W, fun y x =>
    match windowVals size m y x with
    | [] => 0
    | v :: vs => vs.foldl max v⟩

/-- `ImageFilter.MinFilter(size)`: pointwise minimum over the window. -/
def rankMin (size : Int) (m : Grid Int) : Grid Int :=
  ⟨m.H, m.W, fun y x =>
    match windowVals size m y x with
    | [] => 0
    | v :: vs => vs.foldl min v⟩

/-- Step 3, the matte cleanup of the source in order:
optional Gaussian blur (`if mask_blur and mask_blur > 0`), the 50 %
re-threshold, and the optional morphological close
(`if morph and morph >= 3`, a MaxFilter followed by a MinFilter).
Python truthiness makes both guards equivalent to the plain
comparisons used here (`0` is falsy). -/
def matte (gaussBlur : ℚ → Grid Int → Grid Int) (cfg : PreCfg)
    (fg : Grid Bool) : Grid Int :=
  let m0 := maskOfFg fg
  let m1 := if 0 < cfg.mask_blur then gaussBlur cfg.mask_blur m0 else m0
  let m2 := thresholdMask m1
  if 3 ≤ cfg.morph then rankMin cfg.morph (rankMax cfg.morph m2) else m2

/-- `fg = np.array(mask, dtype=np.uint8) > 0`: the final boolean mask. -/
def finalFg (gaussBlur : ℚ → Grid Int → Grid Int) (cfg : PreCfg)
    (arr : Grid Rgba) : Grid Bool :=
  let m := matte gaussBlur cfg (fgRaw cfg arr)
  ⟨m.H, m.W, fun y x => decide (0 < m.px y x)⟩

/-- The whole of `preprocess_flat_keyed_rgb` (minus the file I/O shell):
RGBA raster in, flattened RGB raster out.  The output pixel mirrors the
NumPy write order `out[:] = bg; out[is_white] = white; out[is_blue] =
blue` (the last write wins, and `is_white`/`is_blue` are disjoint). -/
def preprocess_flat_keyed_rgb (resample : Int → Grid Rgba → Grid Rgba)
    (gaussBlur : ℚ → Grid Int → Grid Int) (cfg : PreCfg)
    (img : Grid Rgba) : Grid Rgb :=
  let arr := scaledInput resample cfg img
  let fg2 := finalFg gaussBlur cfg arr
  let dw := fun y x => dist2 (arr.px y x).rgb cfg.white_rgb
  let db := fun y x => dist2 (arr.px y x).rgb cfg.blue_rgb
  let is_blue := fun y x => fg2.px y x && decide (db y x < dw y x)
  let is_white := fun y x => fg2.px y x && !is_blue y x
  ⟨arr.H, arr.W, fun y x =>
    if is_blue y x then u8 cfg.blue_rgb
    else if is_white y x then u8 cfg.white_rgb
    else u8 cfg.bg_rgb⟩

/-- Reading the saved RGB output back with
`Image.open(...).convert("RGBA")`: every alpha becomes 255. -/
def toRGBA (g : Grid Rgb) : Grid Rgba :=
  ⟨g.H, g.W, fun y x => ⟨(g.px y x).r, (g.px y x).g, (g.px y x).b, 255⟩⟩

/-! ## The vector filter `remove_key_color_from_svg` -/

/-- Value of one lowercase hex digit.  (CPython's `int(s, 16)` raises
`ValueError` on a non-hex digit; no claim exercises that corner, and it
is mapped to `none` here.) -/
def hexDigit? (c : Char) : Option Nat :=
  if '0' ≤ c ∧ c ≤ '9' then some (c.toNat - '0'.toNat)
  else if 'a' ≤ c ∧ c ≤ 'f' then some (c.toNat - 'a'.toNat + 10)
  else none

/-- `int(v[i:i+2], 16)` for a pair of hex digits. -/
def hexPair? (c1 c2 : Char) : Option Int := do
  let a ← hexDigit? c1
  let b ← hexDigit? c2
  pure ((16 * a + b : Nat) : Int)

/-- The ASCII whitespace characters: both the regex class `\s` and the
set Python's `str.strip()` removes (space, tab, newline, carriage
return, vertical tab, form feed).  The inputs of this program are
ASCII, so the extra Unicode spaces both would also accept never occur.
(Core `String` functions such as `trim`/`toLower` are avoided
throughout because their implementations do not reduce inside the
kernel; the char-list versions below do.) -/
def isWsChar (c : Char) : Bool :=
  c = ' ' || c = '\t' || c = '\n' || c = '\r' ||
    c = Char.ofNat 11 || c = Char.ofNat 12

/-- Skip leading `\s` characters. -/
def dropWs : List Char → List Char
  | [] => []
  | c :: cs => if isWsChar c then dropWs cs else c :: cs

/-- Python `str.lower()` (ASCII inputs). -/
def pyLower (s : String) : String := String.mk (s.data.map Char.toLower)

/-- Python `str.strip()`: drop whitespace from both ends. -/
def pyStrip (s : String) : String :=
  String.mk ((dropWs (dropWs s.data).reverse).reverse)

/-- Python `s.split(sep)` for a one-character separator: splitting an
empty string gives `[""]`, exactly as in Python. -/
def splitChar (sep : Char) : List Char → List (List Char)
  | [] => [[]]
  | c :: cs =>
    if c = sep then [] :: splitChar sep cs
    else
      match splitChar sep cs with
      | [] => [[c]]
      | h :: t => (c :: h) :: t

/-- `";".join(parts)`. -/
def joinSep (sep : String) : List String → String
  | [] => ""
  | [s] => s
  | s :: rest => s ++ sep ++ joinSep sep rest

/-- Concatenation of a list of strings. -/
def concatAll : List String → String
  | [] => ""
  | s :: rest => s ++ concatAll rest

/-- Longest leading run of decimal digits (`\d+`) and the remainder. -/
def takeDigits : List Char → List Char × List Char
  | [] => ([], [])
  | c :: cs =>
    if c.isDigit then
      let (ds, r) := takeDigits cs
      (c :: ds, r)
    else ([], c :: cs)

/-- Numeric value of a digit run. -/
def digitsVal (ds : List Char) : Nat :=
  ds.foldl (fun n c => 10 * n + (c.toNat - '0'.toNat)) 0

/-- One `\s*(\d+)\s*` component of the `rgb(...)` pattern: leading
whitespace, at least one digit, trailing whitespace. -/
def rgbComponent? (l : List Char) : Option (Nat × List Char) :=
  match takeDigits (dropWs l) with
  | ([], _) => none
  | (ds, r) => some (digitsVal ds, dropWs r)

/-- Consume one expected character. -/
def expectChar (c : Char) : List Char → Option (List Char)
  | [] => none
  | x :: xs => if x = c then some xs else none

/-- `RGB_RE.fullmatch` on an already-lowercased string: the pattern
`rgb\(\s*(\d+)\s*,\s*(\d+)\s*,\s*(\d+)\s*\)` anchored at both ends.
The captured numbers are not range-checked, exactly as in the source. -/
def rgbFuncMatch (w : List Char) : Option Rgb :=
  match w with
  | 'r' :: 'g' :: 'b' :: '(' :: rest => do
    let (n1, r1) ← rgbComponent? rest
    let r2 ← expectChar ',' r1
    let (n2, r3) ← rgbComponent? r2
    let r4 ← expectChar ',' r3
    let (n3, r5) ← rgbComponent? r4
    let r6 ← expectChar ')' r5
    if r6 = [] then some ⟨(n1 : Int), (n2 : Int), (n3 : Int)⟩ else none
  | _ => none

/-- `color_to_rgb`: empty/falsy value → `None`; strip + lowercase;
`"none"` → `None`; 7-character `#rrggbb` → hex parse; otherwise the
`rgb(r,g,b)` regex; anything else → `None`. -/
def color_to_rgb (v : String) : Option Rgb :=
  if v = "" then none
  else
    let w := pyLower (pyStrip v)
    if w = "none" then none
    else
      match w.data with
      | '#' :: c1 :: c2 :: c3 :: c4 :: c5 :: c6 :: [] =>
        match hexPair? c1 c2, hexPair? c3 c4, hexPair? c5 c6 with
        | some r, some g, some b => some ⟨r, g, b⟩
        | _, _, _ => none
      | l => rgbFuncMatch l

/-- `part.split(":", 1)`: split a character list at the first
occurrence of a separator, or fail when the separator is absent. -/
def splitOnce (sep : Char) : List Char → Option (List Char × List Char)
  | [] => none
  | c :: cs =>
    if c = sep then some ([], cs)
    else
      match splitOnce sep cs with
      | none => none
      | some (a, b) => some (c :: a, b)

/-- `style_get`: first `key:value` entry of the semicolon-separated
style string whose key matches case-insensitively; parts without a
colon are skipped; the first match wins. -/
def style_get (style key : String) : Option String :=
  if style = "" then none
  else
    (splitChar ';' style.data).findSome? fun part =>
      match splitOnce ':' part with
      | none => none
      | some (k, v) =>
        if pyLower (pyStrip (String.mk k)) = pyLower key
        then some (pyStrip (String.mk v)) else none

/-- `style_set`: re-serialize the style string, replacing the value of
every case-insensitively matching key (all with the same new value) and
appending `key:value` when no entry matched; blank parts are dropped,
colon-free parts kept verbatim, and the others normalized to
`key:value` with trimmed components. -/
def style_set (style key value : String) : String :=
  let parts0 := ((splitChar ';' style.data).map
    (fun p => pyStrip (String.mk p))).filter (fun p => p ≠ "")
  let render := fun (part : String) =>
    match splitOnce ':' part.data with
    | none => part
    | some (k, v) =>
      if pyLower (pyStrip (String.mk k)) = pyLower key
      then pyStrip (String.mk k) ++ ":" ++ value
      else pyStrip (String.mk k) ++ ":" ++ pyStrip (String.mk v)
  let found := parts0.any fun part =>
    match splitOnce ':' part.data with
    | none => false
    | some (k, _) => pyLower (pyStrip (String.mk k)) == pyLower key
  let parts1 := parts0.map render
  joinSep ";" (if found then parts1 else parts1 ++ [key ++ ":" ++ value])

/-- An `xml.etree.ElementTree.Element`: tag, ordered attribute map,
children.  (The documents this program processes carry no text nodes,
so element text/tail is not modelled.) -/
inductive XElem : Type where
  | node : String → List (String × String) → List XElem → XElem

def XElem.tag : XElem → String
  | .node t _ _ => t

def XElem.attrib : XElem → List (String × String)
  | .node _ a _ => a

def XElem.children : XElem → List XElem
  | .node _ _ c => c

/-- `el.get(k)`: attribute lookup (keys are unique in a parsed tree). -/
def attrGet (e : XElem) (k : String) : Option String :=
  (e.attrib.find? (fun kv => kv.1 == k)).map (fun kv => kv.2)

/-- Python-dict assignment on an ordered attribute list: replace the
value in place when the key exists, else append. -/
def listSet : List (String × String) → String → String → List (String × String)
  | [], k, v => [(k, v)]
  | (k0, v0) :: rest, k, v =>
    if k0 = k then (k0, v) :: rest else (k0, v0) :: listSet rest k v

/-- `el.set(k, v)`. -/
def attrSet (e : XElem) (k v : String) : XElem :=
  .node e.tag (listSet e.attrib k v) e.children

/-- `el.get("style", "")`. -/
def styleOf (e : XElem) : String := (attrGet e "style").getD ""

/-- `el.get(key) or style_get(style, key)`: the direct attribute wins
unless absent or empty (falsy), in which case the style entry is used. -/
def effectiveVal (e : XElem) (key : String) : Option String :=
  match attrGet e key with
  | some s => if s = "" then style_get (styleOf e) key else some s
  | none => style_get (styleOf e) key

/-- `fill_rgb` of the loop body (an empty resolved value is falsy in
Python and also yields `none` through `color_to_rgb`). -/
def fill_rgb (e : XElem) : Option Rgb := (effectiveVal e "fill").bind color_to_rgb

/-- `stroke_rgb` of the loop body. -/
def stroke_rgb (e : XElem) : Option Rgb := (effectiveVal e "stroke").bind color_to_rgb

/-- `rgb_dist(c, bg) <= tol` without the square root: over the reals,
`sqrt d ≤ tol ↔ 0 ≤ tol ∧ d ≤ tol·tol` since `d ≥ 0`, and with
`tol = num/den` (`den > 0`) the right side clears to
`d·den·den ≤ num·num`, pure integer arithmetic.  (CPython takes
`math.sqrt` in double precision; the two sides can differ only when
`tol` is within one rounding error of the exact root, a corner nothing
here exercises.) -/
def withinTol (bg : Rgb) (tol : ℚ) (c : Rgb) : Bool :=
  decide (0 ≤ tol) &&
    decide (dist2 c bg * (tol.den : Int) * (tol.den : Int) ≤ tol.num * tol.num)

/-- `fill_is_bg = fill_rgb and rgb_dist(fill_rgb, bg_rgb) <= tol`. -/
def fill_is_bg (bg : Rgb) (tol : ℚ) (e : XElem) : Bool :=
  match fill_rgb e with
  | some c => withinTol bg tol c
  | none => false

/-- `stroke_is_bg = stroke_rgb and rgb_dist(stroke_rgb, bg_rgb) <= tol`. -/
def stroke_is_bg (bg : Rgb) (tol : ℚ) (e : XElem) : Bool :=
  match stroke_rgb e with
  | some c => withinTol bg tol c
  | none => false

/-- The removal test `fill_is_bg and (not stroke_rgb or stroke_is_bg)`. -/
def condRemove (bg : Rgb) (tol : ℚ) (e : XElem) : Bool :=
  fill_is_bg bg tol e && (!(stroke_rgb e).isSome || stroke_is_bg bg tol e)

/-- An element reaches the stroke-stripping branch iff the removal test
failed (otherwise the loop `continue`s) and its stroke is background. -/
def condStrip (bg : Rgb) (tol : ℚ) (e : XElem) : Bool :=
  !condRemove bg tol e && stroke_is_bg bg tol e

/-- The stroke neutralization: `el.set("stroke", "none")` when the
element has a direct stroke attribute, otherwise rewrite its style
string (`el.set("style", style_set(style, "stroke", "none"))`). -/
def stripStrokeAttrib (a : List (String × String)) : List (String × String) :=
  if a.any (fun kv => kv.1 == "stroke") then listSet a "stroke" "none"
  else
    let style := (((a.find? (fun kv => kv.1 == "style")).map (fun kv => kv.2)).getD "")
    listSet a "style" (style_set style "stroke" "none")

/-!
The loop of `remove_key_color_from_svg` iterates over a snapshot
`list(root.iter())` taken before any mutation, with a parent dictionary
(keyed by object identity) built up front.  In a tree, object identity
corresponds to the node's child-index path in the original document, so
the embedding works with such paths: the loop is a fold over the
pre-order path list that accumulates which nodes get detached and which
get their stroke neutralized, together with the two counters; the
mutated tree is then reconstructed from the original one.  This is
faithful because each loop step classifies an element from attributes
the loop never modifies (stroke stripping happens after the element's
own classification, removal only edits the parent's child list), and
because an edit inside an already-detached subtree is invisible from
the root — exactly as in `ET.tostring(root)` — while still bumping the
counters, as the Python loop does.
-/

mutual
/-- `root.iter()`: document-order (pre-order) traversal, as the list of
child-index paths of all nodes, the root (path `[]`) first. -/
def preorderPaths (p : List Nat) : XElem → List (List Nat)
  | .node _ _ cs => p :: preorderPathsKids p 0 cs

/-- Paths of the pre-order traversals of a list of siblings, the first
sibling having index `i` under parent path `p`. -/
def preorderPathsKids (p : List Nat) (i : Nat) : List XElem → List (List Nat)
  | [] => []
  | c :: cs => preorderPaths (p ++ [i]) c ++ preorderPathsKids p (i + 1) cs
end

/-- The node of the original tree at a child-index path. -/
def atPath : List Nat → XElem → Option XElem
  | [], e => some e
  | i :: p, e => (e.children[i]?).bind (atPath p)

/-- `parent.get(el)`: every node except the root has a parent. -/
def parentPath : List Nat → Option (List Nat)
  | [] => none
  | p => some p.dropLast

/-- The loop state: paths detached so far with the `removed` counter,
and paths whose stroke was neutralized with the `strokestripped`
counter. -/
structure SvgFilterSt where
  removedPaths : List (List Nat)
  removed : Nat
  strippedPaths : List (List Nat)
  stripped : Nat

/-- One iteration of the loop body for the element at path `p`:
if the removal test holds, detach it and count it — but only when the
parent lookup succeeds (`if p is not None`), which fails exactly for
the root; otherwise, if its stroke is background, neutralize it and
count that. -/
def filterStep (bg : Rgb) (tol : ℚ) (root : XElem) (st : SvgFilterSt)
    (p : List Nat) : SvgFilterSt :=
  match atPath p root with
  | none => st
  | some e =>
    if condRemove bg tol e then
      match parentPath p with
      | some _ =>
        ⟨st.removedPaths ++ [p], st.removed + 1, st.strippedPaths, st.stripped⟩
      | none => st
    else if condStrip bg tol e then
      ⟨st.removedPaths, st.removed, st.strippedPaths ++ [p], st.stripped + 1⟩
    else st

/-- The whole loop: fold the body over the pre-order snapshot. -/
def runFilter (bg : Rgb) (tol : ℚ) (root : XElem) : SvgFilterSt :=
  (preorderPaths [] root).foldl (filterStep bg tol root) ⟨[], 0, [], 0⟩

mutual
/-- Apply the accumulated mutations: drop the children whose paths were
detached (with their whole subtrees) and neutralize the strokes of the
surviving nodes whose paths were marked. -/
def rebuildElem (rm sp : List (List Nat)) (p : List Nat) : XElem → XElem
  | .node t a cs =>
    .node t (if p ∈ sp then stripStrokeAttrib a else a) (rebuildKids rm sp p 0 cs)

/-- Rebuild a sibling list, the first sibling having index `i`. -/
def rebuildKids (rm sp : List (List Nat)) (p : List Nat) (i : Nat) :
    List XElem → List XElem
  | [] => []
  | c :: cs =>
    (if p ++ [i] ∈ rm then [] else [rebuildElem rm sp (p ++ [i]) c]) ++
      rebuildKids rm sp p (i + 1) cs
end

/-- The tree-level body of `remove_key_color_from_svg`: run the loop on
the parsed root and return the mutated tree with the two counters. -/
def strip_background_tree (bg : Rgb) (tol : ℚ) (root : XElem) :
    XElem × Nat × Nat :=
  let st := runFilter bg tol root
  (rebuildElem st.removedPaths st.strippedPaths [] root, st.removed, st.stripped)

/-- One serialized attribute, ` key="value"` (the example documents
contain no characters ElementTree would escape). -/
def attrsString (a : List (String × String)) : String :=
  concatAll (a.map fun kv => " " ++ kv.1 ++ "=" ++ "\"" ++ kv.2 ++ "\"")

mutual
/-- `ET.tostring(root, encoding="unicode")` for the trees modelled
here: childless elements self-close as `<tag />`, the rest serialize
their children in order. -/
def tostring : XElem → String
  | .node t a [] => "<" ++ t ++ attrsString a ++ " />"
  | .node t a (c :: cs) =>
    "<" ++ t ++ attrsString a ++ ">" ++ tostringKids (c :: cs) ++ "</" ++ t ++ ">"

/-- Serialize a list of siblings in order. -/
def tostringKids : List XElem → String
  | [] => ""
  | c :: cs => tostring c ++ tostringKids cs
end

/-- `remove_key_color_from_svg` from the document text up: the source
calls `ET.fromstring(svg_text)` with **no** surrounding `try`, so a
parse failure propagates out of the function (modelled as
`Except.error`); on success the loop runs and the re-serialized tree is
returned with the counters.  `parse` stands for the external
`ET.fromstring`; `none` models a text on which it raises `ParseError`. -/
def remove_key_color_from_svg (parse : String → Option XElem)
    (svg_text : String) (bg_rgb : Rgb) (tol : ℚ) :
    Except Unit (String × Nat × Nat) :=
  match parse svg_text with
  | none => Except.error ()
  | some root =>
    let r := strip_background_tree bg_rgb tol root
    Except.ok (tostring r.1, r.2.1, r.2.2)

/-! ## Helper lemmas for the preprocessor -/

theorem dist2_nonneg (c d : Rgb) : 0 ≤ dist2 c d := by
  unfold dist2
  have h1 := mul_self_nonneg (c.r - d.r)
  have h2 := mul_self_nonneg (c.g - d.g)
  have h3 := mul_self_nonneg (c.b - d.b)
  linarith

theorem dist2_self (c : Rgb) : dist2 c c = 0 := by
  unfold dist2; ring

theorem dist2_eq_zero {c d : Rgb} (h : dist2 c d = 0) : c = d := by
  unfold dist2 at h
  have h1 := mul_self_nonneg (c.r - d.r)
  have h2 := mul_self_nonneg (c.g - d.g)
  have h3 := mul_self_nonneg (c.b - d.b)
  have hr : c.r = d.r := by nlinarith
  have hg : c.g = d.g := by nlinarith
  have hb : c.b = d.b := by nlinarith
  cases c; cases d
  simp_all

theorem u8_eq_of_inRange {c : Rgb} (h : InRange c) : u8 c = c := by
  obtain ⟨h1, h2, h3, h4, h5, h6⟩ := h
  unfold u8
  cases c
  simp only [Rgb.mk.injEq]
  exact ⟨Int.emod_eq_of_lt h1 h2, Int.emod_eq_of_lt h3 h4, Int.emod_eq_of_lt h5 h6⟩

theorem Grid.ext_of {α : Type} {g1 g2 : Grid α} (hH : g1.H = g2.H)
    (hW : g1.W = g2.W) (hpx : ∀ y x, g1.px y x = g2.px y x) : g1 = g2 := by
  cases g1; cases g2
  simp only at hH hW
  subst hH; subst hW
  congr 1
  funext y x
  exact hpx y x

/-- Every output pixel is the `uint8` image of one of the three
configured colours, straight from the final ite of the embedding. -/
theorem preprocess_px_mem (rs : Int → Grid Rgba → Grid Rgba)
    (gb : ℚ → Grid Int → Grid Int) (cfg : PreCfg) (img : Grid Rgba) (y x : Nat) :
    (preprocess_flat_keyed_rgb rs gb cfg img).px y x = u8 cfg.bg_rgb ∨
    (preprocess_flat_keyed_rgb rs gb cfg img).px y x = u8 cfg.white_rgb ∨
    (preprocess_flat_keyed_rgb rs gb cfg img).px y x = u8 cfg.blue_rgb := by
  unfold preprocess_flat_keyed_rgb
  dsimp only
  split
  · right; right; rfl
  · split
    · right; left; rfl
    · left; rfl

/-- With `scale = 1` the resize is skipped. -/
theorem scaledInput_id (rs : Int → Grid Rgba → Grid Rgba) {cfg : PreCfg}
    (img : Grid Rgba) (hscale : cfg.scale = 1) :
    scaledInput rs cfg img = img := by
  unfold scaledInput
  rw [if_neg]
  simp [hscale]

/-- With the blur and the morphological close disabled, the matte
refinement is the identity on the raw mask (the 50 % re-threshold fixes
the values 0 and 255). -/
theorem finalFg_no_refine (gb : ℚ → Grid Int → Grid Int) {cfg : PreCfg}
    (arr : Grid Rgba) (hblur : ¬ 0 < cfg.mask_blur) (hmorph : cfg.morph < 3)
    (y x : Nat) :
    (finalFg gb cfg arr).px y x = (fgRaw cfg arr).px y x := by
  unfold finalFg matte
  dsimp only
  rw [if_neg hblur, if_neg (by omega : ¬ (3 : Int) ≤ cfg.morph)]
  dsimp only [thresholdMask, maskOfFg]
  cases h : (fgRaw cfg arr).px y x <;> simp [h]

/-- The pointwise classification the pipeline reduces to when
`scale = 1` and the matte refinement is disabled (proved below in
`preprocess_px_simple`; this is a proof device, not a source
function). -/
def classifyPx (cfg : PreCfg) (v : Rgba) : Rgb :=
  if cfg.alpha_cutoff < v.a ∧ cfg.bg_dist * cfg.bg_dist < dist2 v.rgb cfg.bg_rgb then
    if dist2 v.rgb cfg.blue_rgb < dist2 v.rgb cfg.white_rgb then u8 cfg.blue_rgb
    else u8 cfg.white_rgb
  else u8 cfg.bg_rgb

/-- With `scale = 1`, no blur and no close, each output pixel is a pure
function of the corresponding input pixel. -/
theorem preprocess_px_simple (rs : Int → Grid Rgba → Grid Rgba)
    (gb : ℚ → Grid Int → Grid Int) {cfg : PreCfg} (img : Grid Rgba)
    (hscale : cfg.scale = 1) (hblur : ¬ 0 < cfg.mask_blur)
    (hmorph : cfg.morph < 3) (y x : Nat) :
    (preprocess_flat_keyed_rgb rs gb cfg img).px y x = classifyPx cfg (img.px y x) := by
  unfold preprocess_flat_keyed_rgb
  rw [scaledInput_id rs img hscale]
  dsimp only
  rw [finalFg_no_refine gb img hblur hmorph y x]
  unfold classifyPx fgRaw
  dsimp only
  by_cases h1 : cfg.alpha_cutoff < (img.px y x).a <;>
    by_cases h2 : cfg.bg_dist * cfg.bg_dist < dist2 (img.px y x).rgb cfg.bg_rgb <;>
    by_cases h3 : dist2 (img.px y x).rgb cfg.blue_rgb < dist2 (img.px y x).rgb cfg.white_rgb <;>
    simp [h1, h2, h3]

/-! ## Claims about the preprocessor -/

/-- C1: for every input image and configuration (8-bit configured
colours), every pixel of the flattened output raster is bit-identical
to one of the three configured colours — the background key, the first
palette colour (white) or the second palette colour (blue); no other
RGB value ever appears, whatever the external resampler and blur do. -/
theorem preprocess_palette_exact (rs : Int → Grid Rgba → Grid Rgba)
    (gb : ℚ → Grid Int → Grid Int) (cfg : PreCfg) (img : Grid Rgba) (y x : Nat)
    (hbg : InRange cfg.bg_rgb) (hw : InRange cfg.white_rgb)
    (hb : InRange cfg.blue_rgb) :
    (preprocess_flat_keyed_rgb rs gb cfg img).px y x = cfg.bg_rgb ∨
    (preprocess_flat_keyed_rgb rs gb cfg img).px y x = cfg.white_rgb ∨
    (preprocess_flat_keyed_rgb rs gb cfg img).px y x = cfg.blue_rgb := by
  have h := preprocess_px_mem rs gb cfg img y x
  rwa [u8_eq_of_inRange hbg, u8_eq_of_inRange hw, u8_eq_of_inRange hb] at h

/-- Witness for C1 at a concrete configuration and image. -/
theorem preprocess_palette_exact_witness :
    InRange (⟨255, 0, 255⟩ : Rgb) ∧ InRange (⟨255, 255, 255⟩ : Rgb) ∧
    InRange (⟨0, 0, 255⟩ : Rgb) ∧
    ((preprocess_flat_keyed_rgb (fun _ g => g) (fun _ g => g)
        ⟨⟨255, 255, 255⟩, ⟨0, 0, 255⟩, ⟨255, 0, 255⟩, 128, 1, 35, 0, 3⟩
        ⟨1, 1, fun _ _ => ⟨0, 0, 0, 255⟩⟩).px 0 0 = (⟨255, 0, 255⟩ : Rgb) ∨
      (preprocess_flat_keyed_rgb (fun _ g => g) (fun _ g => g)
        ⟨⟨255, 255, 255⟩, ⟨0, 0, 255⟩, ⟨255, 0, 255⟩, 128, 1, 35, 0, 3⟩
        ⟨1, 1, fun _ _ => ⟨0, 0, 0, 255⟩⟩).px 0 0 = (⟨255, 255, 255⟩ : Rgb) ∨
      (preprocess_flat_keyed_rgb (fun _ g => g) (fun _ g => g)
        ⟨⟨255, 255, 255⟩, ⟨0, 0, 255⟩, ⟨255, 0, 255⟩, 128, 1, 35, 0, 3⟩
        ⟨1, 1, fun _ _ => ⟨0, 0, 0, 255⟩⟩).px 0 0 = (⟨0, 0, 255⟩ : Rgb)) :=
  ⟨by decide, by decide, by decide,
    preprocess_palette_exact (fun _ g => g) (fun _ g => g)
      ⟨⟨255, 255, 255⟩, ⟨0, 0, 255⟩, ⟨255, 0, 255⟩, 128, 1, 35, 0, 3⟩
      ⟨1, 1, fun _ _ => ⟨0, 0, 0, 255⟩⟩ 0 0 (by decide) (by decide) (by decide)⟩

/-- C2 counterexample: with blur 0 and morphological closing size 3,
the centre pixel of this 5×5 image has alpha 0 ≤ cutoff 128, yet the
closing fills it into the foreground mask and the output there is
white, not the background key — so the claimed behaviour does not hold
"regardless of the blur radius and morphological closing size". -/
theorem alpha_cutoff_bg_counterexample :
    ((⟨5, 5, fun y x => if y = 2 ∧ x = 2 then ⟨255, 0, 255, 0⟩
        else ⟨0, 0, 0, 255⟩⟩ : Grid Rgba).px 2 2).a ≤ (128 : Int) ∧
    (preprocess_flat_keyed_rgb (fun _ g => g) (fun _ g => g)
        ⟨⟨255, 255, 255⟩, ⟨0, 0, 255⟩, ⟨255, 0, 255⟩, 128, 1, 35, 0, 3⟩
        ⟨5, 5, fun y x => if y = 2 ∧ x = 2 then ⟨255, 0, 255, 0⟩
          else ⟨0, 0, 0, 255⟩⟩).px 2 2 = (⟨255, 255, 255⟩ : Rgb) ∧
    (⟨255, 255, 255⟩ : Rgb) ≠ (⟨255, 0, 255⟩ : Rgb) := by
  refine ⟨by decide, by decide, by decide⟩

/-- C2 amended: a pixel whose alpha is at most the configured cutoff
maps exactly to the background key — provided the mask refinement is
disabled (`mask_blur ≤ 0` and `morph < 3`) and `scale = 1`; with the
blur or the closing enabled the refined mask may pull such a pixel into
the foreground, as the counterexample shows. -/
theorem alpha_cutoff_bg_amended (rs : Int → Grid Rgba → Grid Rgba)
    (gb : ℚ → Grid Int → Grid Int) (cfg : PreCfg) (img : Grid Rgba) (y x : Nat)
    (hscale : cfg.scale = 1) (hblur : ¬ 0 < cfg.mask_blur)
    (hmorph : cfg.morph < 3) (hbg : InRange cfg.bg_rgb)
    (ha : (img.px y x).a ≤ cfg.alpha_cutoff) :
    (preprocess_flat_keyed_rgb rs gb cfg img).px y x = cfg.bg_rgb := by
  rw [preprocess_px_simple rs gb img hscale hblur hmorph y x]
  unfold classifyPx
  rw [if_neg (fun h => absurd h.1 (not_lt.mpr ha))]
  exact u8_eq_of_inRange hbg

/-- Witness for the amended C2. -/
theorem alpha_cutoff_bg_amended_witness :
    (1 : Int) = 1 ∧ ¬ (0 : ℚ) < 0 ∧ (0 : Int) < 3 ∧ InRange (⟨255, 0, 255⟩ : Rgb) ∧
    ((⟨1, 1, fun _ _ => ⟨17, 17, 17, 100⟩⟩ : Grid Rgba).px 0 0).a ≤ (128 : Int) ∧
    (preprocess_flat_keyed_rgb (fun _ g => g) (fun _ g => g)
        ⟨⟨255, 255, 255⟩, ⟨0, 0, 255⟩, ⟨255, 0, 255⟩, 128, 1, 35, 0, 0⟩
        ⟨1, 1, fun _ _ => ⟨17, 17, 17, 100⟩⟩).px 0 0 = (⟨255, 0, 255⟩ : Rgb) :=
  ⟨rfl, by decide, by decide, by decide, by decide,
    alpha_cutoff_bg_amended (fun _ g => g) (fun _ g => g)
      ⟨⟨255, 255, 255⟩, ⟨0, 0, 255⟩, ⟨255, 0, 255⟩, 128, 1, 35, 0, 0⟩
      ⟨1, 1, fun _ _ => ⟨17, 17, 17, 100⟩⟩ 0 0 rfl (by decide) (by decide)
      (by decide) (by decide)⟩

/-- C3: every pixel the final mask classifies as foreground receives
the palette colour at the smallest squared Euclidean RGB distance from
the pixel's colour in the working raster, ties going to the
first-listed palette colour (white). -/
theorem foreground_nearest_palette (rs : Int → Grid Rgba → Grid Rgba)
    (gb : ℚ → Grid Int → Grid Int) (cfg : PreCfg) (img : Grid Rgba) (y x : Nat)
    (hw : InRange cfg.white_rgb) (hb : InRange cfg.blue_rgb)
    (hfg : (finalFg gb cfg (scaledInput rs cfg img)).px y x = true) :
    ((preprocess_flat_keyed_rgb rs gb cfg img).px y x = cfg.white_rgb ∨
      (preprocess_flat_keyed_rgb rs gb cfg img).px y x = cfg.blue_rgb) ∧
    dist2 ((scaledInput rs cfg img).px y x).rgb
        ((preprocess_flat_keyed_rgb rs gb cfg img).px y x) ≤
      dist2 ((scaledInput rs cfg img).px y x).rgb cfg.white_rgb ∧
    dist2 ((scaledInput rs cfg img).px y x).rgb
        ((preprocess_flat_keyed_rgb rs gb cfg img).px y x) ≤
      dist2 ((scaledInput rs cfg img).px y x).rgb cfg.blue_rgb ∧
    (dist2 ((scaledInput rs cfg img).px y x).rgb cfg.white_rgb =
        dist2 ((scaledInput rs cfg img).px y x).rgb cfg.blue_rgb →
      (preprocess_flat_keyed_rgb rs gb cfg img).px y x = cfg.white_rgb) := by
  unfold preprocess_flat_keyed_rgb
  dsimp only
  rw [hfg]
  by_cases hlt : dist2 ((scaledInput rs cfg img).px y x).rgb cfg.blue_rgb <
      dist2 ((scaledInput rs cfg img).px y x).rgb cfg.white_rgb
  · rw [if_pos (by simp [hlt])]
    rw [u8_eq_of_inRange hb]
    exact ⟨Or.inr rfl, le_of_lt hlt, le_refl _, fun htie => absurd hlt (by omega)⟩
  · rw [if_neg (by simp [hlt]), if_pos (by simp [hlt])]
    rw [u8_eq_of_inRange hw]
    exact ⟨Or.inl rfl, le_refl _, by omega, fun _ => rfl⟩

/-- Witness for C3: a concrete foreground pixel snapped to white. -/
theorem foreground_nearest_palette_witness :
    InRange (⟨255, 255, 255⟩ : Rgb) ∧ InRange (⟨0, 0, 255⟩ : Rgb) ∧
    (finalFg (fun _ g => g)
        ⟨⟨255, 255, 255⟩, ⟨0, 0, 255⟩, ⟨255, 0, 255⟩, 128, 1, 35, 0, 0⟩
        (scaledInput (fun _ g => g)
          ⟨⟨255, 255, 255⟩, ⟨0, 0, 255⟩, ⟨255, 0, 255⟩, 128, 1, 35, 0, 0⟩
          ⟨1, 1, fun _ _ => ⟨200, 200, 200, 255⟩⟩)).px 0 0 = true ∧
    ((preprocess_flat_keyed_rgb (fun _ g => g) (fun _ g => g)
        ⟨⟨255, 255, 255⟩, ⟨0, 0, 255⟩, ⟨255, 0, 255⟩, 128, 1, 35, 0, 0⟩
        ⟨1, 1, fun _ _ => ⟨200, 200, 200, 255⟩⟩).px 0 0 = (⟨255, 255, 255⟩ : Rgb) ∨
      (preprocess_flat_keyed_rgb (fun _ g => g) (fun _ g => g)
        ⟨⟨255, 255, 255⟩, ⟨0, 0, 255⟩, ⟨255, 0, 255⟩, 128, 1, 35, 0, 0⟩
        ⟨1, 1, fun _ _ => ⟨200, 200, 200, 255⟩⟩).px 0 0 = (⟨0, 0, 255⟩ : Rgb)) :=
  ⟨by decide, by decide, by decide,
    (foreground_nearest_palette (fun _ g => g) (fun _ g => g)
      ⟨⟨255, 255, 255⟩, ⟨0, 0, 255⟩, ⟨255, 0, 255⟩, 128, 1, 35, 0, 0⟩
      ⟨1, 1, fun _ _ => ⟨200, 200, 200, 255⟩⟩ 0 0 (by decide) (by decide)
      (by decide)).1⟩

/-- The pointwise classification always lands on one of the three
configured colours (after the `uint8` cast). -/
theorem classifyPx_mem (cfg : PreCfg) (u : Rgba) :
    classifyPx cfg u = u8 cfg.bg_rgb ∨ classifyPx cfg u = u8 cfg.white_rgb ∨
    classifyPx cfg u = u8 cfg.blue_rgb := by
  unfold classifyPx
  split
  · split
    · right; right; rfl
    · right; left; rfl
  · left; rfl

/-- A pixel already holding one of the three configured colours, once
re-read with alpha 255, is a fixed point of the pointwise
classification — provided both palette colours lie strictly farther
than `bg_dist` from the background key and the alpha cutoff is
below 255. -/
theorem classifyPx_fixed (cfg : PreCfg) (v : Rgb)
    (hbg : InRange cfg.bg_rgb) (hw : InRange cfg.white_rgb)
    (hb : InRange cfg.blue_rgb)
    (hwd : cfg.bg_dist * cfg.bg_dist < dist2 cfg.white_rgb cfg.bg_rgb)
    (hbd : cfg.bg_dist * cfg.bg_dist < dist2 cfg.blue_rgb cfg.bg_rgb)
    (hcut : cfg.alpha_cutoff < 255)
    (hv : v = cfg.bg_rgb ∨ v = cfg.white_rgb ∨ v = cfg.blue_rgb) :
    classifyPx cfg ⟨v.r, v.g, v.b, 255⟩ = v := by
  show (if cfg.alpha_cutoff < (255 : Int) ∧
          cfg.bg_dist * cfg.bg_dist < dist2 v cfg.bg_rgb then
        if dist2 v cfg.blue_rgb < dist2 v cfg.white_rgb then u8 cfg.blue_rgb
        else u8 cfg.white_rgb
      else u8 cfg.bg_rgb) = v
  rcases hv with hv | hv | hv
  · subst hv
    rw [if_neg fun h => absurd h.2 (by rw [dist2_self]; exact not_lt.mpr (mul_self_nonneg _))]
    exact u8_eq_of_inRange hbg
  · subst hv
    rw [if_pos ⟨hcut, hwd⟩,
      if_neg (by rw [dist2_self]; exact not_lt.mpr (dist2_nonneg _ _))]
    exact u8_eq_of_inRange hw
  · subst hv
    rw [if_pos ⟨hcut, hbd⟩, dist2_self]
    by_cases hd : 0 < dist2 cfg.blue_rgb cfg.white_rgb
    · rw [if_pos hd]
      exact u8_eq_of_inRange hb
    · rw [if_neg hd]
      have h0 : dist2 cfg.blue_rgb cfg.white_rgb = 0 :=
        le_antisymm (not_lt.mp hd) (dist2_nonneg _ _)
      rw [u8_eq_of_inRange hw]
      exact (dist2_eq_zero h0).symm

/-- With `scale = 1` and the matte refinement disabled, the whole
pipeline is the pointwise classification. -/
theorem preprocess_simple_grid (rs : Int → Grid Rgba → Grid Rgba)
    (gb : ℚ → Grid Int → Grid Int) {cfg : PreCfg} (img : Grid Rgba)
    (hscale : cfg.scale = 1) (hblur : ¬ 0 < cfg.mask_blur)
    (hmorph : cfg.morph < 3) :
    preprocess_flat_keyed_rgb rs gb cfg img =
      ⟨img.H, img.W, fun y x => classifyPx cfg (img.px y x)⟩ := by
  have e1 := scaledInput_id rs img hscale
  apply Grid.ext_of
  · show (scaledInput rs cfg img).H = img.H
    rw [e1]
  · show (scaledInput rs cfg img).W = img.W
    rw [e1]
  · intro y x
    exact preprocess_px_simple rs gb img hscale hblur hmorph y x

/-- C7 counterexample: with palette colour (250,0,255) lying within
`bg_dist = 35` of the key (255,0,255), the single foreground pixel of
this 1×1 image is snapped to (250,0,255) on the first run, but the
second run classifies that colour as background and outputs the key —
the two outputs differ, so `flatten` is not idempotent for every
configuration. -/
theorem flatten_idempotent_counterexample :
    (preprocess_flat_keyed_rgb (fun _ g => g) (fun _ g => g)
        ⟨⟨250, 0, 255⟩, ⟨0, 0, 255⟩, ⟨255, 0, 255⟩, 128, 1, 35, 0, 0⟩
        ⟨1, 1, fun _ _ => ⟨200, 0, 255, 255⟩⟩).px 0 0 = (⟨250, 0, 255⟩ : Rgb) ∧
    (preprocess_flat_keyed_rgb (fun _ g => g) (fun _ g => g)
        ⟨⟨250, 0, 255⟩, ⟨0, 0, 255⟩, ⟨255, 0, 255⟩, 128, 1, 35, 0, 0⟩
        (toRGBA (preprocess_flat_keyed_rgb (fun _ g => g) (fun _ g => g)
          ⟨⟨250, 0, 255⟩, ⟨0, 0, 255⟩, ⟨255, 0, 255⟩, 128, 1, 35, 0, 0⟩
          ⟨1, 1, fun _ _ => ⟨200, 0, 255, 255⟩⟩))).px 0 0 = (⟨255, 0, 255⟩ : Rgb) ∧
    (⟨250, 0, 255⟩ : Rgb) ≠ (⟨255, 0, 255⟩ : Rgb) := by
  refine ⟨by decide, by decide, by decide⟩

/-- C7 amended: re-running the pipeline on its own (re-read) output
with the same configuration reproduces that output exactly, provided
`scale = 1`, the matte refinement is disabled, the configured colours
are 8-bit, both palette colours lie strictly farther than `bg_dist`
from the background key, and the input alphas are 8-bit. -/
theorem flatten_idempotent_amended (rs : Int → Grid Rgba → Grid Rgba)
    (gb : ℚ → Grid Int → Grid Int) (cfg : PreCfg) (img : Grid Rgba)
    (hscale : cfg.scale = 1) (hblur : ¬ 0 < cfg.mask_blur)
    (hmorph : cfg.morph < 3) (hbg : InRange cfg.bg_rgb)
    (hw : InRange cfg.white_rgb) (hb : InRange cfg.blue_rgb)
    (hwd : cfg.bg_dist * cfg.bg_dist < dist2 cfg.white_rgb cfg.bg_rgb)
    (hbd : cfg.bg_dist * cfg.bg_dist < dist2 cfg.blue_rgb cfg.bg_rgb)
    (himg : ∀ y x, (img.px y x).a ≤ 255) :
    preprocess_flat_keyed_rgb rs gb cfg
        (toRGBA (preprocess_flat_keyed_rgb rs gb cfg img)) =
      preprocess_flat_keyed_rgb rs gb cfg img := by
  rw [preprocess_simple_grid rs gb img hscale hblur hmorph]
  rw [preprocess_simple_grid rs gb
    (toRGBA ⟨img.H, img.W, fun y x => classifyPx cfg (img.px y x)⟩)
    hscale hblur hmorph]
  refine Grid.ext_of rfl rfl fun y x => ?_
  show classifyPx cfg
      ⟨(classifyPx cfg (img.px y x)).r, (classifyPx cfg (img.px y x)).g,
        (classifyPx cfg (img.px y x)).b, 255⟩ = classifyPx cfg (img.px y x)
  by_cases hcut : cfg.alpha_cutoff < 255
  · have hmem := classifyPx_mem cfg (img.px y x)
    rw [u8_eq_of_inRange hbg, u8_eq_of_inRange hw, u8_eq_of_inRange hb] at hmem
    exact classifyPx_fixed cfg _ hbg hw hb hwd hbd hcut hmem
  · have hL : classifyPx cfg
        ⟨(classifyPx cfg (img.px y x)).r, (classifyPx cfg (img.px y x)).g,
          (classifyPx cfg (img.px y x)).b, 255⟩ = u8 cfg.bg_rgb := by
      unfold classifyPx
      exact if_neg fun h => hcut h.1
    have hR : classifyPx cfg (img.px y x) = u8 cfg.bg_rgb := by
      unfold classifyPx
      exact if_neg fun h => absurd h.1 (by have := himg y x; omega)
    rw [hL, hR]

/-- Witness for the amended C7 at the program's default palette. -/
theorem flatten_idempotent_amended_witness :
    (1 : Int) = 1 ∧ ¬ (0 : ℚ) < 0 ∧ (0 : Int) < 3 ∧
    InRange (⟨255, 0, 255⟩ : Rgb) ∧ InRange (⟨255, 255, 255⟩ : Rgb) ∧
    InRange (⟨39, 110, 230⟩ : Rgb) ∧
    (35 : Int) * 35 < dist2 ⟨255, 255, 255⟩ ⟨255, 0, 255⟩ ∧
    (35 : Int) * 35 < dist2 ⟨39, 110, 230⟩ ⟨255, 0, 255⟩ ∧
    (∀ y x, (((⟨1, 1, fun _ _ => ⟨0, 0, 0, 255⟩⟩ : Grid Rgba)).px y x).a ≤ 255) ∧
    preprocess_flat_keyed_rgb (fun _ g => g) (fun _ g => g)
        ⟨⟨255, 255, 255⟩, ⟨39, 110, 230⟩, ⟨255, 0, 255⟩, 128, 1, 35, 0, 0⟩
        (toRGBA (preprocess_flat_keyed_rgb (fun _ g => g) (fun _ g => g)
          ⟨⟨255, 255, 255⟩, ⟨39, 110, 230⟩, ⟨255, 0, 255⟩, 128, 1, 35, 0, 0⟩
          ⟨1, 1, fun _ _ => ⟨0, 0, 0, 255⟩⟩)) =
      preprocess_flat_keyed_rgb (fun _ g => g) (fun _ g => g)
        ⟨⟨255, 255, 255⟩, ⟨39, 110, 230⟩, ⟨255, 0, 255⟩, 128, 1, 35, 0, 0⟩
        ⟨1, 1, fun _ _ => ⟨0, 0, 0, 255⟩⟩ :=
  ⟨rfl, by decide, by decide, by decide, by decide, by decide, by decide,
    by decide, fun _ _ => le_refl _,
    flatten_idempotent_amended (fun _ g => g) (fun _ g => g)
      ⟨⟨255, 255, 255⟩, ⟨39, 110, 230⟩, ⟨255, 0, 255⟩, 128, 1, 35, 0, 0⟩
      ⟨1, 1, fun _ _ => ⟨0, 0, 0, 255⟩⟩ rfl (by decide) (by decide) (by decide)
      (by decide) (by decide) (by decide) (by decide) (fun _ _ => le_refl _)⟩

/-! ## Claims about the vector filter -/

/-- C4 counterexample: `remove_key_color_from_svg` calls
`ET.fromstring` with no handler, so on a text the parser rejects
(e.g. `"<svg"`) the error propagates — the result is not the original
text (nor any successful result). -/
theorem parse_failure_counterexample :
    remove_key_color_from_svg (fun _ => none) "<svg" ⟨255, 0, 255⟩ 5 =
      Except.error () ∧
    (Except.error () : Except Unit (String × Nat × Nat)) ≠
      Except.ok ("<svg", 0, 0) :=
  ⟨rfl, by simp⟩

/-- C4 amended: on every unparsable document text the function raises
(the parse failure propagates out); it does not return the original
text. -/
theorem parse_failure_propagates (parse : String → Option XElem)
    (svg_text : String) (bg : Rgb) (tol : ℚ) (h : parse svg_text = none) :
    remove_key_color_from_svg parse svg_text bg tol = Except.error () := by
  unfold remove_key_color_from_svg
  rw [h]

/-- Witness for the amended C4. -/
theorem parse_failure_propagates_witness :
    (fun (_ : String) => (none : Option XElem)) "<svg" = none ∧
    remove_key_color_from_svg (fun _ => none) "<svg" ⟨255, 0, 255⟩ 5 =
      Except.error () :=
  ⟨rfl, parse_failure_propagates (fun _ => none) "<svg" ⟨255, 0, 255⟩ 5 rfl⟩

/-- C6: in a document with a background-filled, stroke-less `rect` and
a foreground-filled `rect` with a background-coloured stroke, the first
element is removed (removed count 1) and the second survives with its
stroke set to `"none"` and its fill untouched (stroke-stripped
count 1). -/
theorem roundtrip_two_rects :
    strip_background_tree ⟨255, 0, 255⟩ 0
        (.node "svg" []
          [.node "rect" [("fill", "#ff00ff")] [],
           .node "rect" [("fill", "#000000"), ("stroke", "#ff00ff")] []]) =
      (.node "svg" []
        [.node "rect" [("fill", "#000000"), ("stroke", "none")] []], 1, 1) :=
  rfl

/-- C10: a stroke written as a named colour, the keyword `none` or a
gradient URL resolves to no colour at all, so a background-filled
element carrying such a stroke is removed outright — here all three
variants are deleted and nothing is merely stroke-stripped. -/
theorem unknown_stroke_removed :
    color_to_rgb "red" = none ∧ color_to_rgb "none" = none ∧
    color_to_rgb "url(#grad1)" = none ∧
    strip_background_tree ⟨255, 0, 255⟩ 0
        (.node "svg" []
          [.node "rect" [("fill", "#ff00ff"), ("stroke", "red")] [],
           .node "rect" [("fill", "#ff00ff"), ("stroke", "none")] [],
           .node "rect" [("fill", "#ff00ff"), ("stroke", "url(#grad1)")] []]) =
      (.node "svg" [] [], 3, 0) :=
  ⟨rfl, rfl, rfl, rfl⟩

/-- C8: a style entry `FILL:#ff00ff` and a direct attribute
`fill="#FF00FF"` resolve to the same colour (style keys and hex digits
are matched case-insensitively), so the two representations classify
identically for every tag, child list, key colour and tolerance. -/
theorem style_attr_case_insensitive (tag : String) (cs : List XElem)
    (bg : Rgb) (tol : ℚ) :
    fill_rgb (.node tag [("style", "FILL:#ff00ff")] cs) = some ⟨255, 0, 255⟩ ∧
    fill_rgb (.node tag [("fill", "#FF00FF")] cs) = some ⟨255, 0, 255⟩ ∧
    condRemove bg tol (.node tag [("style", "FILL:#ff00ff")] cs) =
      condRemove bg tol (.node tag [("fill", "#FF00FF")] cs) ∧
    condStrip bg tol (.node tag [("style", "FILL:#ff00ff")] cs) =
      condStrip bg tol (.node tag [("fill", "#FF00FF")] cs) :=
  ⟨rfl, rfl, rfl, rfl⟩

/-! ## Loop characterization lemmas -/

/-- The element at path `p` is detached by the loop: it satisfies the
removal test and is not the root (only the root has no parent entry). -/
def isRemovablePath (bg : Rgb) (tol : ℚ) (root : XElem) (p : List Nat) : Bool :=
  match atPath p root with
  | some e => condRemove bg tol e && !p.isEmpty
  | none => false

/-- The element at path `p` has its stroke neutralized by the loop. -/
def isStrippedPath (bg : Rgb) (tol : ℚ) (root : XElem) (p : List Nat) : Bool :=
  match atPath p root with
  | some e => condStrip bg tol e
  | none => false

/-- What the loop fold accumulates over any path list: the removable
paths (in order) with their count, and the stroke-stripped paths with
their count. -/
theorem filterStep_foldl (bg : Rgb) (tol : ℚ) (root : XElem)
    (ps : List (List Nat)) (st : SvgFilterSt) :
    ps.foldl (filterStep bg tol root) st =
      ⟨st.removedPaths ++ ps.filter (fun p => isRemovablePath bg tol root p),
       st.removed + ps.countP (fun p => isRemovablePath bg tol root p),
       st.strippedPaths ++ ps.filter (fun p => isStrippedPath bg tol root p),
       st.stripped + ps.countP (fun p => isStrippedPath bg tol root p)⟩ := by
  induction ps generalizing st with
  | nil => simp
  | cons p ps ih =>
    rw [List.foldl_cons, ih]
    have hstep : filterStep bg tol root st p =
        ⟨st.removedPaths ++ if isRemovablePath bg tol root p then [p] else [],
         st.removed + if isRemovablePath bg tol root p then 1 else 0,
         st.strippedPaths ++ if isStrippedPath bg tol root p then [p] else [],
         st.stripped + if isStrippedPath bg tol root p then 1 else 0⟩ := by
      unfold filterStep isRemovablePath isStrippedPath
      cases hat : atPath p root with
      | none => simp
      | some e =>
        by_cases hrm : condRemove bg tol e
        · have hns : condStrip bg tol e = false := by
            unfold condStrip; rw [hrm]; rfl
          cases p with
          | nil => simp [hrm, hns, parentPath]
          | cons i q => simp [hrm, hns, parentPath]
        · by_cases hst : condStrip bg tol e
          · simp [hrm, hst]
          · simp [hrm, hst]
    rw [hstep]
    by_cases h1 : isRemovablePath bg tol root p <;>
      by_cases h2 : isStrippedPath bg tol root p <;>
      simp [h1, h2, List.filter_cons, List.countP_cons] <;> omega

mutual
/-- Every path in a pre-order traversal rooted at prefix `p` extends
`p` and addresses a real node of the traversed element. -/
theorem mem_preorder (p q : List Nat) (e : XElem)
    (hq : q ∈ preorderPaths p e) :
    ∃ s e', q = p ++ s ∧ atPath s e = some e' := by
  cases e with
  | node t a cs =>
    rw [preorderPaths] at hq
    rcases List.mem_cons.mp hq with h | h
    · exact ⟨[], .node t a cs, by simp [h], rfl⟩
    · obtain ⟨j, s, c, e', hj, hq', hs⟩ := mem_preorderKids p 0 q cs h
      refine ⟨(0 + j) :: s, e', hq', ?_⟩
      show (cs[0 + j]?).bind (atPath s) = some e'
      simp only [Nat.zero_add]
      rw [hj]
      exact hs

/-- Every path in the traversal of the sibling list `cs` (first index
`i`, parent prefix `p`) addresses a node inside one of the siblings. -/
theorem mem_preorderKids (p : List Nat) (i : Nat) (q : List Nat)
    (cs : List XElem) (hq : q ∈ preorderPathsKids p i cs) :
    ∃ j s c e', cs[j]? = some c ∧ q = p ++ (i + j) :: s ∧
      atPath s c = some e' := by
  cases cs with
  | nil => cases hq
  | cons c cs' =>
    rw [preorderPathsKids] at hq
    rcases List.mem_append.mp hq with h | h
    · obtain ⟨s, e', hq', hs⟩ := mem_preorder (p ++ [i]) q c h
      exact ⟨0, s, c, e', by simp, by simpa using hq', hs⟩
    · obtain ⟨j, s, c', e', hj, hq', hs⟩ := mem_preorderKids p (i + 1) q cs' h
      refine ⟨j + 1, s, c', e', by simpa using hj, ?_, hs⟩
      rw [hq']
      congr 2
      omega
end

/-- Conversely, each direct child index yields a path present in the
sibling traversal. -/
theorem child_mem_preorderKids (cs : List XElem) (p : List Nat) (i j : Nat)
    (hj : j < cs.length) : p ++ [i + j] ∈ preorderPathsKids p i cs := by
  induction cs generalizing i j with
  | nil => cases hj
  | cons c cs' ih =>
    rw [preorderPathsKids]
    cases j with
    | zero =>
      apply List.mem_append_left
      cases c with
      | node t a gs =>
        rw [preorderPaths]
        exact List.mem_cons_self _ _
    | succ j' =>
      apply List.mem_append_right
      have := ih (i + 1) j' (by simpa using hj)
      have harith : i + 1 + j' = i + (j' + 1) := by omega
      rwa [harith] at this

/-- C9: the root element is never removed, even when its fill and
stroke match the background key: it has no parent entry, so the removal
branch is skipped — the output tree keeps the root's tag and attributes
and the removed counter counts only proper-descendant paths. -/
theorem root_never_removed (bg : Rgb) (tol : ℚ) (root : XElem)
    (h : condRemove bg tol root = true) :
    ((strip_background_tree bg tol root).1).tag = root.tag ∧
    ((strip_background_tree bg tol root).1).attrib = root.attrib ∧
    (strip_background_tree bg tol root).2.1 =
      (preorderPathsKids [] 0 root.children).countP
        (fun p => isRemovablePath bg tol root p) := by
  obtain ⟨t, a, cs⟩ := root
  have h0 : isRemovablePath bg tol (.node t a cs) [] = false := by
    simp [isRemovablePath, atPath]
  have h1 : isStrippedPath bg tol (.node t a cs) [] = false := by
    simp [isStrippedPath, atPath, condStrip, h]
  have hst : runFilter bg tol (.node t a cs) =
      ⟨(preorderPathsKids [] 0 cs).filter
          (fun p => isRemovablePath bg tol (.node t a cs) p),
        (preorderPathsKids [] 0 cs).countP
          (fun p => isRemovablePath bg tol (.node t a cs) p),
        (preorderPathsKids [] 0 cs).filter
          (fun p => isStrippedPath bg tol (.node t a cs) p),
        (preorderPathsKids [] 0 cs).countP
          (fun p => isStrippedPath bg tol (.node t a cs) p)⟩ := by
    unfold runFilter
    rw [preorderPaths, filterStep_foldl]
    simp [List.filter_cons, List.countP_cons, h0, h1]
  unfold strip_background_tree
  rw [hst]
  refine ⟨rfl, ?_, rfl⟩
  show (if ([] : List Nat) ∈ (preorderPathsKids [] 0 cs).filter
        (fun p => isStrippedPath bg tol (.node t a cs) p)
      then stripStrokeAttrib a else a) = a
  rw [if_neg]
  intro hmem
  have hpred := (List.mem_filter.mp hmem).2
  rw [h1] at hpred
  cases hpred

/-- Witness for C9: an all-background root with one child; the root
survives and only the child path is counted. -/
theorem root_never_removed_witness :
    condRemove ⟨255, 0, 255⟩ 0
      (.node "svg" [("fill", "#ff00ff")]
        [.node "rect" [("fill", "#ff00ff")] []]) = true ∧
    (((strip_background_tree ⟨255, 0, 255⟩ 0
        (.node "svg" [("fill", "#ff00ff")]
          [.node "rect" [("fill", "#ff00ff")] []])).1).tag =
      (XElem.node "svg" [("fill", "#ff00ff")]
        [.node "rect" [("fill", "#ff00ff")] []]).tag ∧
    ((strip_background_tree ⟨255, 0, 255⟩ 0
        (.node "svg" [("fill", "#ff00ff")]
          [.node "rect" [("fill", "#ff00ff")] []])).1).attrib =
      (XElem.node "svg" [("fill", "#ff00ff")]
        [.node "rect" [("fill", "#ff00ff")] []]).attrib ∧
    (strip_background_tree ⟨255, 0, 255⟩ 0
        (.node "svg" [("fill", "#ff00ff")]
          [.node "rect" [("fill", "#ff00ff")] []])).2.1 =
      (preorderPathsKids [] 0
        (XElem.node "svg" [("fill", "#ff00ff")]
          [.node "rect" [("fill", "#ff00ff")] []]).children).countP
        (fun p => isRemovablePath ⟨255, 0, 255⟩ 0
          (.node "svg" [("fill", "#ff00ff")]
            [.node "rect" [("fill", "#ff00ff")] []]) p)) :=
  ⟨by decide,
    root_never_removed ⟨255, 0, 255⟩ 0
      (.node "svg" [("fill", "#ff00ff")]
        [.node "rect" [("fill", "#ff00ff")] []]) (by decide)⟩

/-- If every child path is marked removed, rebuilding a sibling list
yields the empty list. -/
theorem rebuildKids_eq_nil (rm sp : List (List Nat)) (p : List Nat)
    (cs : List XElem) (i : Nat)
    (hall : ∀ j, j < cs.length → p ++ [i + j] ∈ rm) :
    rebuildKids rm sp p i cs = [] := by
  induction cs generalizing i with
  | nil => rfl
  | cons c cs' ih =>
    have hhead : p ++ [i] ∈ rm := by
      have := hall 0 (by simp)
      simpa using this
    rw [rebuildKids, if_pos hhead, List.nil_append]
    refine ih (i + 1) fun j hj => ?_
    have := hall (j + 1) (by simpa using hj)
    have harith : i + (j + 1) = i + 1 + j := by omega
    rwa [harith] at this

/-- C5 counterexample: a parsable document in which every element
(root and child) matches the background exactly.  There is no
degenerate-output guard: the child is removed (count 1) and the gutted
single-element document is returned — not the original text. -/
theorem all_background_counterexample :
    remove_key_color_from_svg
        (fun s =>
          if s = "<svg fill=\"#ff00ff\"><rect fill=\"#ff00ff\" /></svg>"
          then some (.node "svg" [("fill", "#ff00ff")]
            [.node "rect" [("fill", "#ff00ff")] []])
          else none)
        "<svg fill=\"#ff00ff\"><rect fill=\"#ff00ff\" /></svg>"
        ⟨255, 0, 255⟩ 0 =
      Except.ok ("<svg fill=\"#ff00ff\" />", 1, 0) ∧
    ("<svg fill=\"#ff00ff\" />" : String) ≠
      "<svg fill=\"#ff00ff\"><rect fill=\"#ff00ff\" /></svg>" :=
  ⟨rfl, by decide⟩

/-- C5 amended: when every element of a parsable document classifies as
background, every non-root element is removed and counted; only the
root survives (it has no parent entry), nothing is stroke-stripped, and
the result is the gutted single-element tree — not the original
document. -/
theorem all_background_gutted (bg : Rgb) (tol : ℚ) (root : XElem)
    (hall : ∀ p e, atPath p root = some e → condRemove bg tol e = true) :
    (strip_background_tree bg tol root).1 = .node root.tag root.attrib [] ∧
    (strip_background_tree bg tol root).2.1 =
      (preorderPathsKids [] 0 root.children).length ∧
    (strip_background_tree bg tol root).2.2 = 0 := by
  obtain ⟨t, a, cs⟩ := root
  have hroot : condRemove bg tol (.node t a cs) = true := hall [] _ rfl
  have h0 : isRemovablePath bg tol (.node t a cs) [] = false := by
    simp [isRemovablePath, atPath]
  have hnostrip : ∀ q, isStrippedPath bg tol (.node t a cs) q = false := by
    intro q
    unfold isStrippedPath
    cases hat : atPath q (.node t a cs) with
    | none => rfl
    | some e => simp [condStrip, hall q e hat]
  have hkids : ∀ q ∈ preorderPathsKids [] 0 cs,
      isRemovablePath bg tol (.node t a cs) q = true := by
    intro q hq
    obtain ⟨j, s, c, e', hj, hq', hs⟩ := mem_preorderKids [] 0 q cs hq
    rw [List.nil_append] at hq'
    subst hq'
    have hvalid : atPath ((0 + j) :: s) (.node t a cs) = some e' := by
      show (cs[0 + j]?).bind (atPath s) = some e'
      simp only [Nat.zero_add]
      rw [hj]
      exact hs
    unfold isRemovablePath
    rw [hvalid]
    simp [hall _ _ hvalid]
  have hst : runFilter bg tol (.node t a cs) =
      ⟨(preorderPathsKids [] 0 cs).filter
          (fun p => isRemovablePath bg tol (.node t a cs) p),
        (preorderPathsKids [] 0 cs).countP
          (fun p => isRemovablePath bg tol (.node t a cs) p),
        (preorderPathsKids [] 0 cs).filter
          (fun p => isStrippedPath bg tol (.node t a cs) p),
        (preorderPathsKids [] 0 cs).countP
          (fun p => isStrippedPath bg tol (.node t a cs) p)⟩ := by
    unfold runFilter
    rw [preorderPaths, filterStep_foldl]
    simp [List.filter_cons, List.countP_cons, h0, hnostrip]
  unfold strip_background_tree
  rw [hst]
  refine ⟨?_, ?_, ?_⟩
  · show XElem.node t
        (if ([] : List Nat) ∈ (preorderPathsKids [] 0 cs).filter
            (fun p => isStrippedPath bg tol (.node t a cs) p)
          then stripStrokeAttrib a else a)
        (rebuildKids
          ((preorderPathsKids [] 0 cs).filter
            (fun p => isRemovablePath bg tol (.node t a cs) p))
          ((preorderPathsKids [] 0 cs).filter
            (fun p => isStrippedPath bg tol (.node t a cs) p))
          [] 0 cs) = .node t a []
    rw [if_neg (fun hmem => by
      have hpred := (List.mem_filter.mp hmem).2
      rw [hnostrip] at hpred
      cases hpred)]
    rw [rebuildKids_eq_nil]
    intro j hj
    rw [List.nil_append]
    apply List.mem_filter.mpr
    constructor
    · have := child_mem_preorderKids cs [] 0 j hj
      simpa using this
    · have hcj : cs[j]? = some cs[j] := List.getElem?_eq_getElem hj
      have hvalid : atPath [0 + j] (.node t a cs) = some cs[j] := by
        show (cs[0 + j]?).bind (atPath []) = some cs[j]
        simp only [Nat.zero_add]
        rw [hcj]
        rfl
      unfold isRemovablePath
      simp only [Nat.zero_add] at hvalid ⊢
      rw [hvalid]
      simp [hall _ _ hvalid]
  · show (preorderPathsKids [] 0 cs).countP
        (fun p => isRemovablePath bg tol (.node t a cs) p) =
      (preorderPathsKids [] 0 cs).length
    exact List.countP_eq_length.mpr fun q hq => hkids q hq
  · show (preorderPathsKids [] 0 cs).countP
        (fun p => isStrippedPath bg tol (.node t a cs) p) = 0
    refine List.countP_eq_zero.mpr fun q hq => ?_
    simp [hnostrip q]

/-- Witness for the amended C5: the all-background two-element document
is gutted down to its root, with one removal and no stroke strips. -/
theorem all_background_gutted_witness :
    (∀ p e, atPath p (XElem.node "svg" [("fill", "#ff00ff")]
        [.node "rect" [("fill", "#ff00ff")] []]) = some e →
      condRemove ⟨255, 0, 255⟩ 0 e = true) ∧
    ((strip_background_tree ⟨255, 0, 255⟩ 0
        (.node "svg" [("fill", "#ff00ff")]
          [.node "rect" [("fill", "#ff00ff")] []])).1 =
      .node "svg" [("fill", "#ff00ff")] [] ∧
    (strip_background_tree ⟨255, 0, 255⟩ 0
        (.node "svg" [("fill", "#ff00ff")]
          [.node "rect" [("fill", "#ff00ff")] []])).2.1 = 1 ∧
    (strip_background_tree ⟨255, 0, 255⟩ 0
        (.node "svg" [("fill", "#ff00ff")]
          [.node "rect" [("fill", "#ff00ff")] []])).2.2 = 0) := by
  have hall : ∀ p e, atPath p (XElem.node "svg" [("fill", "#ff00ff")]
      [.node "rect" [("fill", "#ff00ff")] []]) = some e →
      condRemove ⟨255, 0, 255⟩ 0 e = true := by
    intro p e h
    rcases p with _ | ⟨i, q⟩
    · simp only [atPath, Option.some.injEq] at h
      subst h
      decide
    · rcases i with _ | i
      · rcases q with _ | ⟨j, q'⟩
        · simp only [atPath, XElem.children, List.getElem?_cons_zero,
            Option.some_bind, Option.some.injEq] at h
          subst h
          decide
        · simp [atPath, XElem.children] at h
      · simp [atPath, XElem.children] at h
  exact ⟨hall, all_background_gutted ⟨255, 0, 255⟩ 0
    (.node "svg" [("fill", "#ff00ff")]
      [.node "rect" [("fill", "#ff00ff")] []]) hall⟩
